import Mathlib

/-!
Verification of the configuration singleton of SentinelResponse
(`src/sentinelresponse/config/sentinel_response_config.py`).

The component is embedded shallowly:

* the TOML parser and the filesystem are black boxes, modelled as a map from
  paths to `none` (no such file), a parse error, or a parsed document;
* a `SentinelResponseConfig` object is its `_toml_path` attribute plus the
  three public attributes `main` / `notification` / `log` (bundled in
  `Sections`, since `_load` assigns all three with no failure point between
  the assignments; `sections = none` models an object on which the three
  attributes were never assigned, so that reading them raises
  `AttributeError`);
* object identity is explicit: a `World` carries the class slot `_instance`,
  a heap from identities to object states, and a fresh-identity counter, so
  that in-place mutation visible to all holders and reference identity can be
  stated;
* `__new__` run by a single caller from start to finish is the sequential
  function `new`; the first-construction race of `__new__` under the
  double-checked lock is modelled separately as an interleaving semantics
  (`Step` / `Reachable`) further down.
-/

namespace SentinelResponse

/-- Structured values of a configuration document, as produced by `toml.load`:
scalars, arrays and (possibly nested) tables. -/
inductive Value where
  | str : String → Value
  | int : Int → Value
  | boolean : Bool → Value
  | arr : List Value → Value
  | table : List (String × Value) → Value

/-- Filesystem paths (`pathlib.Path` values), modelled as strings. -/
abbrev Path := String

/-- A top-level parsed document: the dictionary returned by `toml.load`. -/
abbrev Doc := List (String × Value)

/-- An exception raised by the TOML parser (`toml.TomlDecodeError`). -/
inductive ParseError where
  | tomlDecodeError : String → ParseError
deriving DecidableEq

/-- The filesystem together with the parser, treated as black boxes: `none`
means the path does not exist, `some (Except.error e)` means the file exists
but `toml.load` raises `e`, and `some (Except.ok d)` means `toml.load`
returns the top-level document `d`. -/
abbrev FS := Path → Option (Except ParseError Doc)

/-- `data.get(key, {})` on the parsed top-level document: the value stored at
`key`, or the empty mapping when the key is absent. -/
def docGet (data : Doc) (key : String) : Value :=
  match data.find? (fun kv => kv.1 == key) with
  | some kv => kv.2
  | none => Value.table []

/-- Exceptions that can escape `_load`: `FileNotFoundError` (the spec's
`ConfigurationNotFound` condition) carrying the missing path, or a parser
exception propagated unchanged. -/
inductive LoadError where
  | configurationNotFound : Path → LoadError
  | parseFailure : ParseError → LoadError
deriving DecidableEq

/-- The three public mapping attributes assigned by `_load`. -/
structure Sections where
  main : Value
  notification : Value
  log : Value

/-- `SentinelResponseConfig._load`: raise `FileNotFoundError` if the path
does not exist, otherwise parse the file (propagating any parser exception)
and extract the `main`, `notification` and `log` sections, each defaulting
to the empty mapping. On success all three attributes are assigned; on
failure none of them is touched. -/
def load (fs : FS) (toml_path : Path) : Except LoadError Sections :=
  match fs toml_path with
  | none => Except.error (LoadError.configurationNotFound toml_path)
  | some (Except.error e) => Except.error (LoadError.parseFailure e)
  | some (Except.ok data) =>
      Except.ok { main := docGet data "main"
                  notification := docGet data "notification"
                  log := docGet data "log" }

/-- The state of one `SentinelResponseConfig` object: its `_toml_path`
attribute and (once assigned) the three public attributes. -/
structure ConfigObj where
  toml_path : Path
  sections : Option Sections

/-- Object identities (references). -/
abbrev InstId := Nat

/-- Process-wide state: the filesystem, the class slot
`SentinelResponseConfig._instance` (the identity of the installed object, if
any), the heap giving every object identity its current state, and a
fresh-identity counter. -/
structure World where
  fs : FS
  instSlot : Option InstId
  heap : InstId → ConfigObj
  nextId : InstId

/-- Writing one object state into the heap (in-place mutation seen by every
holder of the identity `i`). -/
def heapUpdate (h : InstId → ConfigObj) (i : InstId) (obj : ConfigObj) :
    InstId → ConfigObj :=
  fun j => if j = i then obj else h j

/-- `SentinelResponseConfig.DEFAULT_PATH`
(`Path(__file__).parent / "config.toml"`). -/
def DEFAULT_PATH : Path := "src/sentinelresponse/config/config.toml"

/-- `Path(toml_path) if toml_path else fallback`: in Python both `None` and
the empty string are falsy and select the fallback path. -/
def resolvePath (toml_path : Option Path) (fallback : Path) : Path :=
  match toml_path with
  | none => fallback
  | some p => if p = "" then fallback else p

/-- `SentinelResponseConfig.__new__`, run from start to finish by a single
caller (so the lock acquisitions are no-ops). If the slot is occupied the
existing identity is returned and nothing else happens. Otherwise a fresh
object is allocated and installed into the slot, its `_toml_path` is set,
and only then is `_load` run: a failing load escapes as the exception while
the half-constructed object stays installed in the slot. -/
def new (w : World) (toml_path : Option Path) : Except LoadError InstId × World :=
  let path := resolvePath toml_path DEFAULT_PATH
  match w.instSlot with
  | some i => (Except.ok i, w)
  | none =>
      let i := w.nextId
      let w1 : World :=
        { w with instSlot := some i
                 nextId := i + 1
                 heap := heapUpdate w.heap i { toml_path := path, sections := none } }
      match load w.fs path with
      | Except.error e => (Except.error e, w1)
      | Except.ok secs =>
          (Except.ok i,
            { w1 with heap := heapUpdate w1.heap i { toml_path := path, sections := some secs } })

/-- `SentinelResponseConfig.reload` acting on the state of the object it is
called on: resolve the target path (previous `_toml_path` when the argument
is absent or falsy), overwrite `_toml_path`, then run `_load`; a failing
load escapes after the path was already overwritten, with the sections left
as they were. -/
def reloadObj (fs : FS) (obj : ConfigObj) (toml_path : Option Path) :
    Except LoadError Unit × ConfigObj :=
  let path := resolvePath toml_path obj.toml_path
  let obj1 : ConfigObj := { obj with toml_path := path }
  match load fs path with
  | Except.error e => (Except.error e, obj1)
  | Except.ok secs => (Except.ok (), { obj1 with sections := some secs })

/-- `reload` invoked on the object with identity `i`, as seen at the level of
the whole process: the object's heap cell is mutated in place, everything
else is untouched. -/
def reload (w : World) (i : InstId) (toml_path : Option Path) :
    Except LoadError Unit × World :=
  let r := reloadObj w.fs (w.heap i) toml_path
  (r.1, { w with heap := heapUpdate w.heap i r.2 })

/-! ### Concrete fixtures used by witnesses and counterexamples -/

/-- A path that exists on the concrete filesystems below. -/
def validPath : Path := "/tmp/config.toml"

/-- A second existing path, holding different values. -/
def newPath : Path := "/tmp/config2.toml"

/-- A path that exists but whose content makes the parser raise. -/
def badPath : Path := "/tmp/broken.toml"

/-- A path that does not exist on any of the concrete filesystems below. -/
def missingPath : Path := "/tmp/does_not_exist.toml"

/-- The document of the spec's literal example scenario. -/
def baseDoc : Doc :=
  [("main", Value.table [("foo", Value.str "bar")]),
   ("notification", Value.table [("email", Value.str "user@example.com")]),
   ("log", Value.table [("level", Value.str "DEBUG")])]

/-- A document with different values and two sections absent. -/
def updatedDoc : Doc :=
  [("main", Value.table [("foo", Value.str "baz")])]

/-- A filesystem with one valid configuration file. -/
def fs1 : FS := fun p => if p = validPath then some (Except.ok baseDoc) else none

/-- A filesystem with two valid configuration files holding different values. -/
def fs2 : FS := fun p =>
  if p = validPath then some (Except.ok baseDoc)
  else if p = newPath then some (Except.ok updatedDoc)
  else none

/-- A filesystem with one valid file and one file that fails to parse. -/
def fsBad : FS := fun p =>
  if p = validPath then some (Except.ok baseDoc)
  else if p = badPath then some (Except.error (ParseError.tomlDecodeError "bad")) else none

/-- A process that has not constructed the singleton yet (fresh slot). -/
def freshWorld (fs : FS) : World :=
  { fs := fs
    instSlot := none
    heap := fun _ => { toml_path := DEFAULT_PATH, sections := none }
    nextId := 0 }

/-- The world after a successful first construction from `validPath` on `fs1`. -/
def wLoaded : World := (new (freshWorld fs1) (some validPath)).2

/-- The world after a successful first construction from `validPath` on `fs2`. -/
def wLoaded2 : World := (new (freshWorld fs2) (some validPath)).2

/-- The world after a successful first construction from `validPath` on `fsBad`. -/
def wLoadedBad : World := (new (freshWorld fsBad) (some validPath)).2

/-- The filesystem after the content stored at `validPath` was changed on
disk (same path, new document). -/
def fsChanged : FS := fun p => if p = validPath then some (Except.ok updatedDoc) else none

/-- `wLoaded` after the on-disk content of its source path changed. -/
def wChanged : World := { wLoaded with fs := fsChanged }

/-! ### C9: the concurrent first-construction race

`__new__` with a fixed valid path, executed by `n` threads against a fresh
slot, as an interleaving of atomic statements. Each thread runs the body of
`__new__`:

* `fastCheck` — the unguarded `if cls._instance is None`;
* `acquire`   — entering `with cls._lock` (enabled only when the lock is free);
* `recheck`   — the guarded `if cls._instance is None`;
* `installStep` — `cls._instance = super().__new__(cls)` (the object each
  thread would create carries that thread's index as its identity, so two
  installations would produce observably different references);
* `loadStep`  — `cls._instance._toml_path = path; cls._instance._load(path)`
  (the path is valid, so the load succeeds);
* `releaseStep` — leaving the `with` block;
* `retStep`   — `return cls._instance`;
* `done i`    — the caller holds the returned reference `i`.

`installCount` and `loadCount` count how many installations and file loads
have occurred. -/

/-- Program counter of one thread running `__new__`. -/
inductive PC where
  | fastCheck
  | acquire
  | recheck
  | installStep
  | loadStep
  | releaseStep
  | retStep
  | done (result : InstId)
deriving DecidableEq

/-- `true` on the program points inside the `with cls._lock` block. -/
def PC.inCrit : PC → Bool
  | .recheck => true
  | .installStep => true
  | .loadStep => true
  | .releaseStep => true
  | _ => false

/-- `true` once the caller has returned. -/
def PC.isDone : PC → Bool
  | .done _ => true
  | _ => false

/-- Shared state of the race: the slot `cls._instance`, the holder of
`cls._lock`, the two event counters and every thread's program counter. -/
structure CState (n : Nat) where
  slot : Option InstId
  lockHolder : Option (Fin n)
  installCount : Nat
  loadCount : Nat
  pc : Fin n → PC

/-- Updating one thread's program counter. -/
def pcUpdate {n : Nat} (p : Fin n → PC) (t : Fin n) (v : PC) : Fin n → PC :=
  fun u => if u = t then v else p u

/-- All `n` callers at the top of `__new__`, fresh slot, lock free. -/
def initState (n : Nat) : CState n :=
  { slot := none, lockHolder := none, installCount := 0, loadCount := 0
    pc := fun _ => PC.fastCheck }

/-- One atomic statement of one thread. -/
inductive Step (n : Nat) : CState n → CState n → Prop where
  | fastCheckHit {s : CState n} (t : Fin n) (i : InstId) :
      s.pc t = PC.fastCheck → s.slot = some i →
      Step n s { s with pc := pcUpdate s.pc t PC.retStep }
  | fastCheckMiss {s : CState n} (t : Fin n) :
      s.pc t = PC.fastCheck → s.slot = none →
      Step n s { s with pc := pcUpdate s.pc t PC.acquire }
  | acquireLock {s : CState n} (t : Fin n) :
      s.pc t = PC.acquire → s.lockHolder = none →
      Step n s { s with lockHolder := some t, pc := pcUpdate s.pc t PC.recheck }
  | recheckHit {s : CState n} (t : Fin n) (i : InstId) :
      s.pc t = PC.recheck → s.slot = some i →
      Step n s { s with pc := pcUpdate s.pc t PC.releaseStep }
  | recheckMiss {s : CState n} (t : Fin n) :
      s.pc t = PC.recheck → s.slot = none →
      Step n s { s with pc := pcUpdate s.pc t PC.installStep }
  | installExec {s : CState n} (t : Fin n) :
      s.pc t = PC.installStep →
      Step n s { s with slot := some t.val, installCount := s.installCount + 1
                        pc := pcUpdate s.pc t PC.loadStep }
  | loadExec {s : CState n} (t : Fin n) :
      s.pc t = PC.loadStep →
      Step n s { s with loadCount := s.loadCount + 1
                        pc := pcUpdate s.pc t PC.releaseStep }
  | releaseExec {s : CState n} (t : Fin n) :
      s.pc t = PC.releaseStep → s.lockHolder = some t →
      Step n s { s with lockHolder := none, pc := pcUpdate s.pc t PC.retStep }
  | retExec {s : CState n} (t : Fin n) (i : InstId) :
      s.pc t = PC.retStep → s.slot = some i →
      Step n s { s with pc := pcUpdate s.pc t (PC.done i) }

/-- States reachable from the fresh-slot initial state. -/
inductive Reachable (n : Nat) : CState n → Prop where
  | init : Reachable n (initState n)
  | next {s s' : CState n} : Reachable n s → Step n s s' → Reachable n s'

/-- The inductive invariant of the race. -/
structure RaceInv (n : Nat) (s : CState n) : Prop where
  lockOfCrit : ∀ t : Fin n, (s.pc t).inCrit = true → s.lockHolder = some t
  critOfLock : ∀ t : Fin n, s.lockHolder = some t → (s.pc t).inCrit = true
  slotOfInstall : ∀ t : Fin n, s.pc t = PC.installStep → s.slot = none
  slotOfLoad : ∀ t : Fin n, s.pc t = PC.loadStep → s.slot = some t.val
  countOfLoad : ∀ t : Fin n, s.pc t = PC.loadStep → s.loadCount = 0 ∧ s.installCount = 1
  countsMatch : (∀ t : Fin n, s.pc t ≠ PC.loadStep) → s.loadCount = s.installCount
  slotInstallCount : s.slot = none ↔ s.installCount = 0
  installBound : s.installCount ≤ 1
  slotOfDone : ∀ (t : Fin n) (i : InstId), s.pc t = PC.done i → s.slot = some i
  slotOfRet : ∀ t : Fin n, s.pc t = PC.retStep → s.slot ≠ none
  slotOfRelease : ∀ t : Fin n, s.pc t = PC.releaseStep → s.slot ≠ none

/-- The two callers of the witness execution of the race. -/
def raceT0 : Fin 2 := ⟨0, by decide⟩

def raceT1 : Fin 2 := ⟨1, by decide⟩

/-- A complete two-caller execution: caller 0 takes the whole slow path and
installs, then caller 1 hits the fast path and returns the same reference. -/
def raceS0 : CState 2 := initState 2

def raceS1 : CState 2 := { raceS0 with pc := pcUpdate raceS0.pc raceT0 PC.acquire }

def raceS2 : CState 2 :=
  { raceS1 with lockHolder := some raceT0, pc := pcUpdate raceS1.pc raceT0 PC.recheck }

def raceS3 : CState 2 := { raceS2 with pc := pcUpdate raceS2.pc raceT0 PC.installStep }

def raceS4 : CState 2 :=
  { raceS3 with slot := some raceT0.val, installCount := raceS3.installCount + 1
                pc := pcUpdate raceS3.pc raceT0 PC.loadStep }

def raceS5 : CState 2 :=
  { raceS4 with loadCount := raceS4.loadCount + 1
                pc := pcUpdate raceS4.pc raceT0 PC.releaseStep }

def raceS6 : CState 2 :=
  { raceS5 with lockHolder := none, pc := pcUpdate raceS5.pc raceT0 PC.retStep }

def raceS7 : CState 2 := { raceS6 with pc := pcUpdate raceS6.pc raceT0 (PC.done 0) }

def raceS8 : CState 2 := { raceS7 with pc := pcUpdate raceS7.pc raceT1 PC.retStep }

def raceS9 : CState 2 := { raceS8 with pc := pcUpdate raceS8.pc raceT1 (PC.done 0) }

/-- Per-thread progress measure. -/
def pcMeasure : PC → Nat
  | PC.fastCheck => 7
  | PC.acquire => 6
  | PC.recheck => 5
  | PC.installStep => 4
  | PC.loadStep => 3
  | PC.releaseStep => 2
  | PC.retStep => 1
  | PC.done _ => 0

/-- Global progress measure of the race. -/
def raceMeasure {n : Nat} (s : CState n) : Nat :=
  Finset.univ.sum (fun t => pcMeasure (s.pc t))


/-! ### Theorems -/

/-! ### C1 -/

/-- C1 (code bug): constructing against a fresh slot with a nonexistent path
raises `FileNotFoundError`, but — contrary to the claim — the class slot does
not stay `None`: the half-constructed object is left installed, and the
subsequent construction call with an existing, valid path returns that broken
object unchanged, performing no load, so its `main` / `notification` / `log`
attributes are still unassigned. -/
theorem new_failed_first_construction_leaves_instance_installed :
    (new (freshWorld fs1) (some missingPath)).1
        = Except.error (LoadError.configurationNotFound missingPath) ∧
    (new (freshWorld fs1) (some missingPath)).2.instSlot = some 0 ∧
    (new ((new (freshWorld fs1) (some missingPath)).2) (some validPath)).1 = Except.ok 0 ∧
    (new ((new (freshWorld fs1) (some missingPath)).2) (some validPath)).2
        = (new (freshWorld fs1) (some missingPath)).2 ∧
    ((new ((new (freshWorld fs1) (some missingPath)).2) (some validPath)).2.heap 0).sections
        = none :=
  ⟨rfl, rfl, rfl, rfl, rfl⟩

/-! ### C2 -/

/-- C2: once an instance is installed in the slot, every later construction
call, whatever its path argument, returns the installed identity and changes
nothing at all: the path argument is ignored and no load is triggered. -/
theorem new_after_install_returns_same_instance (w : World) (i : InstId)
    (p : Option Path) (h : w.instSlot = some i) :
    new w p = (Except.ok i, w) := by
  simp [new, h]

theorem new_after_install_returns_same_instance_witness :
    wLoaded.instSlot = some 0 ∧ new wLoaded (some newPath) = (Except.ok 0, wLoaded) :=
  ⟨rfl, new_after_install_returns_same_instance wLoaded 0 (some newPath) rfl⟩

/-! ### C3 -/

/-- C3: a first construction from an existing, parsable file succeeds and
assigns the three public attributes to exactly the corresponding top-level
sections of the parsed document; a section absent from the document yields
the empty mapping. -/
theorem new_populates_sections (w : World) (p : Path) (d : Doc)
    (hslot : w.instSlot = none) (hp : p ≠ "") (hfs : w.fs p = some (Except.ok d)) :
    (new w (some p)).1 = Except.ok w.nextId ∧
    (new w (some p)).2.heap w.nextId =
      { toml_path := p
        sections := some { main := docGet d "main"
                           notification := docGet d "notification"
                           log := docGet d "log" } } ∧
    (∀ key, d.find? (fun kv => kv.1 == key) = none → docGet d key = Value.table []) := by
  refine ⟨?_, ?_, ?_⟩
  · simp [new, resolvePath, hp, hslot, load, hfs]
  · simp [new, resolvePath, hp, hslot, load, hfs, heapUpdate]
  · intro key h
    simp [docGet, h]

theorem new_populates_sections_witness :
    ((freshWorld fs1).instSlot = none ∧ validPath ≠ "" ∧
      (freshWorld fs1).fs validPath = some (Except.ok baseDoc)) ∧
    (new (freshWorld fs1) (some validPath)).1 = Except.ok 0 ∧
    (new (freshWorld fs1) (some validPath)).2.heap 0 =
      { toml_path := validPath
        sections := some { main := docGet baseDoc "main"
                           notification := docGet baseDoc "notification"
                           log := docGet baseDoc "log" } } :=
  ⟨⟨rfl, by decide, rfl⟩,
    (new_populates_sections (freshWorld fs1) validPath baseDoc rfl (by decide) rfl).1,
    (new_populates_sections (freshWorld fs1) validPath baseDoc rfl (by decide) rfl).2.1⟩

/-! ### C4 -/

/-- C4: reloading from an existing, parsable path succeeds, replaces the
three sections of the object in place with the tables parsed from that path
(not the previous values), keeps the singleton slot (hence the instance
identity) unchanged, and touches no other heap cell, so every holder of the
identity observes the updated values. -/
theorem reload_replaces_values (w : World) (i : InstId) (p : Path) (d : Doc)
    (hp : p ≠ "") (hfs : w.fs p = some (Except.ok d)) :
    (reload w i (some p)).1 = Except.ok () ∧
    (reload w i (some p)).2.instSlot = w.instSlot ∧
    (reload w i (some p)).2.heap i =
      { toml_path := p
        sections := some { main := docGet d "main"
                           notification := docGet d "notification"
                           log := docGet d "log" } } ∧
    (∀ j, j ≠ i → (reload w i (some p)).2.heap j = w.heap j) := by
  refine ⟨?_, ?_, ?_, ?_⟩
  · simp [reload, reloadObj, resolvePath, hp, load, hfs]
  · simp [reload]
  · simp [reload, reloadObj, resolvePath, hp, load, hfs, heapUpdate]
  · intro j hj
    simp [reload, heapUpdate, hj]

theorem reload_replaces_values_witness :
    (newPath ≠ "" ∧ wLoaded2.fs newPath = some (Except.ok updatedDoc)) ∧
    (reload wLoaded2 0 (some newPath)).1 = Except.ok () ∧
    (reload wLoaded2 0 (some newPath)).2.heap 0 =
      { toml_path := newPath
        sections := some { main := docGet updatedDoc "main"
                           notification := docGet updatedDoc "notification"
                           log := docGet updatedDoc "log" } } :=
  ⟨⟨by decide, rfl⟩,
    (reload_replaces_values wLoaded2 0 newPath updatedDoc (by decide) rfl).1,
    (reload_replaces_values wLoaded2 0 newPath updatedDoc (by decide) rfl).2.2.1⟩

/-! ### C5 -/

/-- C5: `reload()` with no path argument behaves exactly like an explicit
reload from the object's recorded `_toml_path` — the path most recently
stored (initial construction path or last explicit reload target) — so when
the filesystem now holds new content at that path, the sections are
repopulated from the new content. -/
theorem reload_none_reuses_last_path (w : World) (i : InstId) (d : Doc)
    (hfs : w.fs ((w.heap i).toml_path) = some (Except.ok d)) :
    reload w i none = reload w i (some ((w.heap i).toml_path)) ∧
    (reload w i none).1 = Except.ok () ∧
    ((reload w i none).2.heap i).sections =
      some { main := docGet d "main"
             notification := docGet d "notification"
             log := docGet d "log" } := by
  refine ⟨?_, ?_, ?_⟩
  · have : resolvePath (some ((w.heap i).toml_path)) ((w.heap i).toml_path)
        = (w.heap i).toml_path := by
      simp [resolvePath]
    simp [reload, reloadObj, resolvePath, this]
  · simp [reload, reloadObj, resolvePath, load, hfs]
  · simp [reload, reloadObj, resolvePath, load, hfs, heapUpdate]

theorem reload_none_reuses_last_path_witness :
    wChanged.fs ((wChanged.heap 0).toml_path) = some (Except.ok updatedDoc) ∧
    (reload wChanged 0 none).1 = Except.ok () ∧
    ((reload wChanged 0 none).2.heap 0).sections =
      some { main := docGet updatedDoc "main"
             notification := docGet updatedDoc "notification"
             log := docGet updatedDoc "log" } :=
  ⟨rfl, (reload_none_reuses_last_path wChanged 0 updatedDoc rfl).2.1,
    (reload_none_reuses_last_path wChanged 0 updatedDoc rfl).2.2⟩

/-! ### C6 -/

/-- C6: `_load` fails with `FileNotFoundError` exactly when the target path
does not exist on the filesystem; a first construction and a reload that
target a missing path both propagate that error synchronously to the caller
(the result is the error — no default or fallback configuration is
substituted). -/
theorem load_fails_iff_missing (w : World) (p : Path) (i : InstId)
    (hp : p ≠ "") (hslot : w.instSlot = none) :
    (load w.fs p = Except.error (LoadError.configurationNotFound p) ↔ w.fs p = none) ∧
    (w.fs p = none →
      (new w (some p)).1 = Except.error (LoadError.configurationNotFound p) ∧
      (reload w i (some p)).1 = Except.error (LoadError.configurationNotFound p)) := by
  constructor
  · constructor
    · intro h
      cases hfs : w.fs p with
      | none => rfl
      | some r =>
        cases r with
        | ok d => rw [load, hfs] at h; exact absurd h (by simp)
        | error e => rw [load, hfs] at h; exact absurd h (by simp)
    · intro h
      rw [load, h]
  · intro h
    constructor
    · simp [new, resolvePath, hp, hslot, load, h]
    · simp [reload, reloadObj, resolvePath, hp, load, h]

theorem load_fails_iff_missing_witness :
    (missingPath ≠ "" ∧ (freshWorld fs1).instSlot = none ∧
      (freshWorld fs1).fs missingPath = none) ∧
    load (freshWorld fs1).fs missingPath
      = Except.error (LoadError.configurationNotFound missingPath) ∧
    (new (freshWorld fs1) (some missingPath)).1
      = Except.error (LoadError.configurationNotFound missingPath) ∧
    (reload (freshWorld fs1) 0 (some missingPath)).1
      = Except.error (LoadError.configurationNotFound missingPath) :=
  ⟨⟨by decide, rfl, rfl⟩,
    (load_fails_iff_missing (freshWorld fs1) missingPath 0 (by decide) rfl).1.2 rfl,
    ((load_fails_iff_missing (freshWorld fs1) missingPath 0 (by decide) rfl).2 rfl).1,
    ((load_fails_iff_missing (freshWorld fs1) missingPath 0 (by decide) rfl).2 rfl).2⟩

/-! ### C7 -/

/-- C7: a reload targeting a missing path fails and leaves the previously
assigned sections unchanged, but the recorded `_toml_path` was already
overwritten to the missing target path before the load was attempted, so
after the failure the stored path is the missing one, not the path of the
last successful load. -/
theorem reload_missing_overwrites_path_keeps_sections (w : World) (i : InstId) (p : Path)
    (hp : p ≠ "") (hfs : w.fs p = none) :
    (reload w i (some p)).1 = Except.error (LoadError.configurationNotFound p) ∧
    (reload w i (some p)).2.heap i =
      { toml_path := p, sections := (w.heap i).sections } := by
  constructor
  · simp [reload, reloadObj, resolvePath, hp, load, hfs]
  · simp [reload, reloadObj, resolvePath, hp, load, hfs, heapUpdate]

theorem reload_missing_overwrites_path_keeps_sections_witness :
    (missingPath ≠ "" ∧ wLoaded.fs missingPath = none) ∧
    (reload wLoaded 0 (some missingPath)).1
      = Except.error (LoadError.configurationNotFound missingPath) ∧
    (reload wLoaded 0 (some missingPath)).2.heap 0
      = { toml_path := missingPath, sections := (wLoaded.heap 0).sections } :=
  ⟨⟨by decide, rfl⟩,
    (reload_missing_overwrites_path_keeps_sections wLoaded 0 missingPath (by decide) rfl).1,
    (reload_missing_overwrites_path_keeps_sections wLoaded 0 missingPath (by decide) rfl).2⟩

/-! ### C8 -/

/-- C8: a reload targeting a missing path raises `FileNotFoundError`; the
installed singleton reference is the identity-same instance afterwards, its
sections are still present, and the instance remains usable by every holder:
a later reload from an existing, parsable path still succeeds. -/
theorem reload_missing_preserves_identity (w : World) (i : InstId) (p : Path)
    (hp : p ≠ "") (hfs : w.fs p = none) (hslot : w.instSlot = some i) :
    (reload w i (some p)).1 = Except.error (LoadError.configurationNotFound p) ∧
    (reload w i (some p)).2.instSlot = some i ∧
    ((reload w i (some p)).2.heap i).sections = (w.heap i).sections ∧
    (∀ q d, q ≠ "" → w.fs q = some (Except.ok d) →
      (reload ((reload w i (some p)).2) i (some q)).1 = Except.ok ()) := by
  refine ⟨?_, ?_, ?_, ?_⟩
  · simp [reload, reloadObj, resolvePath, hp, load, hfs]
  · simp [reload, hslot]
  · simp [reload, reloadObj, resolvePath, hp, load, hfs, heapUpdate]
  · intro q d hq hfsq
    simp [reload, reloadObj, resolvePath, hp, hq, load, hfs, hfsq, heapUpdate]

theorem reload_missing_preserves_identity_witness :
    (missingPath ≠ "" ∧ wLoaded.fs missingPath = none ∧ wLoaded.instSlot = some 0) ∧
    (reload wLoaded 0 (some missingPath)).1
      = Except.error (LoadError.configurationNotFound missingPath) ∧
    (reload wLoaded 0 (some missingPath)).2.instSlot = some 0 ∧
    ((reload wLoaded 0 (some missingPath)).2.heap 0).sections = (wLoaded.heap 0).sections :=
  ⟨⟨by decide, rfl, rfl⟩,
    (reload_missing_preserves_identity wLoaded 0 missingPath (by decide) rfl rfl).1,
    (reload_missing_preserves_identity wLoaded 0 missingPath (by decide) rfl rfl).2.1,
    (reload_missing_preserves_identity wLoaded 0 missingPath (by decide) rfl rfl).2.2.1⟩

/-! ### C10 -/

/-- C10: a reload whose target exists but fails to parse propagates the
parser's exception unchanged; the three sections keep exactly their
pre-reload values (parsing completes before any of the three attributes is
assigned), only the stored path moved to the target, and the slot is
untouched. -/
theorem reload_parse_error_keeps_sections (w : World) (i : InstId) (p : Path)
    (e : ParseError) (hp : p ≠ "") (hfs : w.fs p = some (Except.error e)) :
    (reload w i (some p)).1 = Except.error (LoadError.parseFailure e) ∧
    (reload w i (some p)).2.heap i =
      { toml_path := p, sections := (w.heap i).sections } ∧
    (reload w i (some p)).2.instSlot = w.instSlot := by
  refine ⟨?_, ?_, ?_⟩
  · simp [reload, reloadObj, resolvePath, hp, load, hfs]
  · simp [reload, reloadObj, resolvePath, hp, load, hfs, heapUpdate]
  · simp [reload]

theorem reload_parse_error_keeps_sections_witness :
    (badPath ≠ "" ∧
      wLoadedBad.fs badPath = some (Except.error (ParseError.tomlDecodeError "bad"))) ∧
    (reload wLoadedBad 0 (some badPath)).1
      = Except.error (LoadError.parseFailure (ParseError.tomlDecodeError "bad")) ∧
    (reload wLoadedBad 0 (some badPath)).2.heap 0
      = { toml_path := badPath, sections := (wLoadedBad.heap 0).sections } :=
  ⟨⟨by decide, rfl⟩,
    (reload_parse_error_keeps_sections wLoadedBad 0 badPath
      (ParseError.tomlDecodeError "bad") (by decide) rfl).1,
    (reload_parse_error_keeps_sections wLoadedBad 0 badPath
      (ParseError.tomlDecodeError "bad") (by decide) rfl).2.1⟩

theorem raceInv_init (n : Nat) : RaceInv n (initState n) := by
  constructor <;> simp [initState, PC.inCrit]

theorem pcUpdate_self {n : Nat} (p : Fin n → PC) (t : Fin n) (v : PC) :
    pcUpdate p t v t = v := by
  simp [pcUpdate]

theorem pcUpdate_ne {n : Nat} (p : Fin n → PC) {u t : Fin n} (v : PC) (h : u ≠ t) :
    pcUpdate p t v u = p u := by
  simp [pcUpdate, h]

theorem raceInv_step {n : Nat} {s s' : CState n}
    (inv : RaceInv n s) (hstep : Step n s s') : RaceInv n s' := by
  cases hstep with
  | fastCheckHit t i hpc hslot =>
      refine ⟨?_, ?_, ?_, ?_, ?_, ?_, inv.slotInstallCount, inv.installBound, ?_, ?_, ?_⟩
      · intro u hu
        simp only [CState.pc] at hu
        by_cases h : u = t
        · subst h; rw [pcUpdate_self] at hu; exact Bool.noConfusion hu
        · rw [pcUpdate_ne _ _ h] at hu; exact inv.lockOfCrit u hu
      · intro u hu
        have hc := inv.critOfLock u hu
        show (pcUpdate s.pc t PC.retStep u).inCrit = true
        by_cases h : u = t
        · subst h; rw [hpc] at hc; exact Bool.noConfusion hc
        · rw [pcUpdate_ne _ _ h]; exact hc
      · intro u hu
        simp only [CState.pc] at hu
        by_cases h : u = t
        · subst h; rw [pcUpdate_self] at hu; exact PC.noConfusion hu
        · rw [pcUpdate_ne _ _ h] at hu; exact inv.slotOfInstall u hu
      · intro u hu
        simp only [CState.pc] at hu
        by_cases h : u = t
        · subst h; rw [pcUpdate_self] at hu; exact PC.noConfusion hu
        · rw [pcUpdate_ne _ _ h] at hu; exact inv.slotOfLoad u hu
      · intro u hu
        simp only [CState.pc] at hu
        by_cases h : u = t
        · subst h; rw [pcUpdate_self] at hu; exact PC.noConfusion hu
        · rw [pcUpdate_ne _ _ h] at hu; exact inv.countOfLoad u hu
      · intro h
        apply inv.countsMatch
        intro u
        by_cases hu : u = t
        · subst hu; rw [hpc]; intro hx; exact PC.noConfusion hx
        · have hx := h u
          simp only [CState.pc] at hx
          rw [pcUpdate_ne _ _ hu] at hx
          exact hx
      · intro u j hu
        simp only [CState.pc] at hu
        by_cases h : u = t
        · subst h; rw [pcUpdate_self] at hu; exact PC.noConfusion hu
        · rw [pcUpdate_ne _ _ h] at hu; exact inv.slotOfDone u j hu
      · intro u _
        show s.slot ≠ none
        rw [hslot]
        exact fun hx => Option.noConfusion hx
      · intro u hu
        simp only [CState.pc] at hu
        by_cases h : u = t
        · subst h; rw [pcUpdate_self] at hu; exact PC.noConfusion hu
        · rw [pcUpdate_ne _ _ h] at hu; exact inv.slotOfRelease u hu
  | fastCheckMiss t hpc hslot =>
      refine ⟨?_, ?_, ?_, ?_, ?_, ?_, inv.slotInstallCount, inv.installBound, ?_, ?_, ?_⟩
      · intro u hu
        simp only [CState.pc] at hu
        by_cases h : u = t
        · subst h; rw [pcUpdate_self] at hu; exact Bool.noConfusion hu
        · rw [pcUpdate_ne _ _ h] at hu; exact inv.lockOfCrit u hu
      · intro u hu
        have hc := inv.critOfLock u hu
        show (pcUpdate s.pc t PC.acquire u).inCrit = true
        by_cases h : u = t
        · subst h; rw [hpc] at hc; exact Bool.noConfusion hc
        · rw [pcUpdate_ne _ _ h]; exact hc
      · intro u hu
        simp only [CState.pc] at hu
        by_cases h : u = t
        · subst h; rw [pcUpdate_self] at hu; exact PC.noConfusion hu
        · rw [pcUpdate_ne _ _ h] at hu; exact inv.slotOfInstall u hu
      · intro u hu
        simp only [CState.pc] at hu
        by_cases h : u = t
        · subst h; rw [pcUpdate_self] at hu; exact PC.noConfusion hu
        · rw [pcUpdate_ne _ _ h] at hu; exact inv.slotOfLoad u hu
      · intro u hu
        simp only [CState.pc] at hu
        by_cases h : u = t
        · subst h; rw [pcUpdate_self] at hu; exact PC.noConfusion hu
        · rw [pcUpdate_ne _ _ h] at hu; exact inv.countOfLoad u hu
      · intro h
        apply inv.countsMatch
        intro u
        by_cases hu : u = t
        · subst hu; rw [hpc]; intro hx; exact PC.noConfusion hx
        · have hx := h u
          simp only [CState.pc] at hx
          rw [pcUpdate_ne _ _ hu] at hx
          exact hx
      · intro u j hu
        simp only [CState.pc] at hu
        by_cases h : u = t
        · subst h; rw [pcUpdate_self] at hu; exact PC.noConfusion hu
        · rw [pcUpdate_ne _ _ h] at hu; exact inv.slotOfDone u j hu
      · intro u hu
        simp only [CState.pc] at hu
        by_cases h : u = t
        · subst h; rw [pcUpdate_self] at hu; exact PC.noConfusion hu
        · rw [pcUpdate_ne _ _ h] at hu; exact inv.slotOfRet u hu
      · intro u hu
        simp only [CState.pc] at hu
        by_cases h : u = t
        · subst h; rw [pcUpdate_self] at hu; exact PC.noConfusion hu
        · rw [pcUpdate_ne _ _ h] at hu; exact inv.slotOfRelease u hu
  | acquireLock t hpc hlock =>
      refine ⟨?_, ?_, ?_, ?_, ?_, ?_, inv.slotInstallCount, inv.installBound, ?_, ?_, ?_⟩
      · intro u hu
        simp only [CState.pc] at hu
        by_cases h : u = t
        · subst h; rfl
        · rw [pcUpdate_ne _ _ h] at hu
          have hl := inv.lockOfCrit u hu
          rw [hlock] at hl
          exact Option.noConfusion hl
      · intro u hu
        have hu' : some t = some u := hu
        have hut : t = u := by injection hu'
        subst hut
        show (pcUpdate s.pc t PC.recheck t).inCrit = true
        rw [pcUpdate_self]
        rfl
      · intro u hu
        simp only [CState.pc] at hu
        by_cases h : u = t
        · subst h; rw [pcUpdate_self] at hu; exact PC.noConfusion hu
        · rw [pcUpdate_ne _ _ h] at hu; exact inv.slotOfInstall u hu
      · intro u hu
        simp only [CState.pc] at hu
        by_cases h : u = t
        · subst h; rw [pcUpdate_self] at hu; exact PC.noConfusion hu
        · rw [pcUpdate_ne _ _ h] at hu; exact inv.slotOfLoad u hu
      · intro u hu
        simp only [CState.pc] at hu
        by_cases h : u = t
        · subst h; rw [pcUpdate_self] at hu; exact PC.noConfusion hu
        · rw [pcUpdate_ne _ _ h] at hu; exact inv.countOfLoad u hu
      · intro h
        apply inv.countsMatch
        intro u
        by_cases hu : u = t
        · subst hu; rw [hpc]; intro hx; exact PC.noConfusion hx
        · have hx := h u
          simp only [CState.pc] at hx
          rw [pcUpdate_ne _ _ hu] at hx
          exact hx
      · intro u j hu
        simp only [CState.pc] at hu
        by_cases h : u = t
        · subst h; rw [pcUpdate_self] at hu; exact PC.noConfusion hu
        · rw [pcUpdate_ne _ _ h] at hu; exact inv.slotOfDone u j hu
      · intro u hu
        simp only [CState.pc] at hu
        by_cases h : u = t
        · subst h; rw [pcUpdate_self] at hu; exact PC.noConfusion hu
        · rw [pcUpdate_ne _ _ h] at hu; exact inv.slotOfRet u hu
      · intro u hu
        simp only [CState.pc] at hu
        by_cases h : u = t
        · subst h; rw [pcUpdate_self] at hu; exact PC.noConfusion hu
        · rw [pcUpdate_ne _ _ h] at hu; exact inv.slotOfRelease u hu
  | recheckHit t i hpc hslot =>
      refine ⟨?_, ?_, ?_, ?_, ?_, ?_, inv.slotInstallCount, inv.installBound, ?_, ?_, ?_⟩
      · intro u hu
        simp only [CState.pc] at hu
        by_cases h : u = t
        · subst h
          exact inv.lockOfCrit u (by rw [hpc]; rfl)
        · rw [pcUpdate_ne _ _ h] at hu; exact inv.lockOfCrit u hu
      · intro u hu
        have hc := inv.critOfLock u hu
        show (pcUpdate s.pc t PC.releaseStep u).inCrit = true
        by_cases h : u = t
        · subst h; rw [pcUpdate_self]; rfl
        · rw [pcUpdate_ne _ _ h]; exact hc
      · intro u hu
        simp only [CState.pc] at hu
        by_cases h : u = t
        · subst h; rw [pcUpdate_self] at hu; exact PC.noConfusion hu
        · rw [pcUpdate_ne _ _ h] at hu; exact inv.slotOfInstall u hu
      · intro u hu
        simp only [CState.pc] at hu
        by_cases h : u = t
        · subst h; rw [pcUpdate_self] at hu; exact PC.noConfusion hu
        · rw [pcUpdate_ne _ _ h] at hu; exact inv.slotOfLoad u hu
      · intro u hu
        simp only [CState.pc] at hu
        by_cases h : u = t
        · subst h; rw [pcUpdate_self] at hu; exact PC.noConfusion hu
        · rw [pcUpdate_ne _ _ h] at hu; exact inv.countOfLoad u hu
      · intro h
        apply inv.countsMatch
        intro u
        by_cases hu : u = t
        · subst hu; rw [hpc]; intro hx; exact PC.noConfusion hx
        · have hx := h u
          simp only [CState.pc] at hx
          rw [pcUpdate_ne _ _ hu] at hx
          exact hx
      · intro u j hu
        simp only [CState.pc] at hu
        by_cases h : u = t
        · subst h; rw [pcUpdate_self] at hu; exact PC.noConfusion hu
        · rw [pcUpdate_ne _ _ h] at hu; exact inv.slotOfDone u j hu
      · intro u hu
        simp only [CState.pc] at hu
        by_cases h : u = t
        · subst h; rw [pcUpdate_self] at hu; exact PC.noConfusion hu
        · rw [pcUpdate_ne _ _ h] at hu; exact inv.slotOfRet u hu
      · intro u _
        show s.slot ≠ none
        rw [hslot]
        exact fun hx => Option.noConfusion hx
  | recheckMiss t hpc hslot =>
      refine ⟨?_, ?_, ?_, ?_, ?_, ?_, inv.slotInstallCount, inv.installBound, ?_, ?_, ?_⟩
      · intro u hu
        simp only [CState.pc] at hu
        by_cases h : u = t
        · subst h
          exact inv.lockOfCrit u (by rw [hpc]; rfl)
        · rw [pcUpdate_ne _ _ h] at hu; exact inv.lockOfCrit u hu
      · intro u hu
        have hc := inv.critOfLock u hu
        show (pcUpdate s.pc t PC.installStep u).inCrit = true
        by_cases h : u = t
        · subst h; rw [pcUpdate_self]; rfl
        · rw [pcUpdate_ne _ _ h]; exact hc
      · intro u _
        exact hslot
      · intro u hu
        simp only [CState.pc] at hu
        by_cases h : u = t
        · subst h; rw [pcUpdate_self] at hu; exact PC.noConfusion hu
        · rw [pcUpdate_ne _ _ h] at hu; exact inv.slotOfLoad u hu
      · intro u hu
        simp only [CState.pc] at hu
        by_cases h : u = t
        · subst h; rw [pcUpdate_self] at hu; exact PC.noConfusion hu
        · rw [pcUpdate_ne _ _ h] at hu; exact inv.countOfLoad u hu
      · intro h
        apply inv.countsMatch
        intro u
        by_cases hu : u = t
        · subst hu; rw [hpc]; intro hx; exact PC.noConfusion hx
        · have hx := h u
          simp only [CState.pc] at hx
          rw [pcUpdate_ne _ _ hu] at hx
          exact hx
      · intro u j hu
        simp only [CState.pc] at hu
        by_cases h : u = t
        · subst h; rw [pcUpdate_self] at hu; exact PC.noConfusion hu
        · rw [pcUpdate_ne _ _ h] at hu; exact inv.slotOfDone u j hu
      · intro u hu
        simp only [CState.pc] at hu
        by_cases h : u = t
        · subst h; rw [pcUpdate_self] at hu; exact PC.noConfusion hu
        · rw [pcUpdate_ne _ _ h] at hu; exact inv.slotOfRet u hu
      · intro u hu
        simp only [CState.pc] at hu
        by_cases h : u = t
        · subst h; rw [pcUpdate_self] at hu; exact PC.noConfusion hu
        · rw [pcUpdate_ne _ _ h] at hu; exact inv.slotOfRelease u hu
  | installExec t hpc =>
      have hslotnone : s.slot = none := inv.slotOfInstall t hpc
      have hlock : s.lockHolder = some t := inv.lockOfCrit t (by rw [hpc]; rfl)
      have hicount : s.installCount = 0 := inv.slotInstallCount.mp hslotnone
      have hNoLoad : ∀ u : Fin n, s.pc u ≠ PC.loadStep := by
        intro u hu
        have hcrit := inv.lockOfCrit u (by rw [hu]; rfl)
        rw [hlock] at hcrit
        have hut : t = u := by injection hcrit
        subst hut
        rw [hpc] at hu
        exact PC.noConfusion hu
      have hlcount : s.loadCount = 0 := (inv.countsMatch hNoLoad).trans hicount
      refine ⟨?_, ?_, ?_, ?_, ?_, ?_, ?_, ?_, ?_, ?_, ?_⟩
      · intro u hu
        simp only [CState.pc] at hu
        by_cases h : u = t
        · subst h; exact hlock
        · rw [pcUpdate_ne _ _ h] at hu; exact inv.lockOfCrit u hu
      · intro u hu
        have hu' : s.lockHolder = some u := hu
        rw [hlock] at hu'
        have hut : t = u := by injection hu'
        subst hut
        show (pcUpdate s.pc t PC.loadStep t).inCrit = true
        rw [pcUpdate_self]
        rfl
      · intro u hu
        simp only [CState.pc] at hu
        by_cases h : u = t
        · subst h; rw [pcUpdate_self] at hu; exact PC.noConfusion hu
        · rw [pcUpdate_ne _ _ h] at hu
          have hcrit := inv.lockOfCrit u (by rw [hu]; rfl)
          rw [hlock] at hcrit
          have hut : t = u := by injection hcrit
          exact absurd hut.symm h
      · intro u hu
        simp only [CState.pc] at hu
        by_cases h : u = t
        · subst h; rfl
        · rw [pcUpdate_ne _ _ h] at hu
          exact absurd hu (hNoLoad u)
      · intro u hu
        simp only [CState.pc] at hu
        by_cases h : u = t
        · subst h
          constructor
          · exact hlcount
          · show s.installCount + 1 = 1
            rw [hicount]
        · rw [pcUpdate_ne _ _ h] at hu
          exact absurd hu (hNoLoad u)
      · intro h
        have hx := h t
        simp only [CState.pc] at hx
        rw [pcUpdate_self] at hx
        exact absurd rfl hx
      · show some t.val = none ↔ s.installCount + 1 = 0
        simp
      · show s.installCount + 1 ≤ 1
        omega
      · intro u j hu
        simp only [CState.pc] at hu
        by_cases h : u = t
        · subst h; rw [pcUpdate_self] at hu; exact PC.noConfusion hu
        · rw [pcUpdate_ne _ _ h] at hu
          have hd := inv.slotOfDone u j hu
          rw [hslotnone] at hd
          exact Option.noConfusion hd
      · intro u _
        show some t.val ≠ none
        exact fun hx => Option.noConfusion hx
      · intro u _
        show some t.val ≠ none
        exact fun hx => Option.noConfusion hx
  | loadExec t hpc =>
      have hcl := inv.countOfLoad t hpc
      have hslott : s.slot = some t.val := inv.slotOfLoad t hpc
      have hlock : s.lockHolder = some t := inv.lockOfCrit t (by rw [hpc]; rfl)
      have hOnly : ∀ u : Fin n, ¬u = t → ¬(s.pc u).inCrit = true := by
        intro u hut hu
        have hl := inv.lockOfCrit u hu
        rw [hlock] at hl
        have h2 : t = u := by injection hl
        exact hut h2.symm
      refine ⟨?_, ?_, ?_, ?_, ?_, ?_, inv.slotInstallCount, inv.installBound, ?_, ?_, ?_⟩
      · intro u hu
        simp only [CState.pc] at hu
        by_cases h : u = t
        · subst h; exact hlock
        · rw [pcUpdate_ne _ _ h] at hu; exact inv.lockOfCrit u hu
      · intro u hu
        have hu' : s.lockHolder = some u := hu
        rw [hlock] at hu'
        have hut : t = u := by injection hu'
        subst hut
        show (pcUpdate s.pc t PC.releaseStep t).inCrit = true
        rw [pcUpdate_self]
        rfl
      · intro u hu
        simp only [CState.pc] at hu
        by_cases h : u = t
        · subst h; rw [pcUpdate_self] at hu; exact PC.noConfusion hu
        · rw [pcUpdate_ne _ _ h] at hu
          exact absurd (by rw [hu]; rfl) (hOnly u h)
      · intro u hu
        simp only [CState.pc] at hu
        by_cases h : u = t
        · subst h; rw [pcUpdate_self] at hu; exact PC.noConfusion hu
        · rw [pcUpdate_ne _ _ h] at hu
          exact absurd (by rw [hu]; rfl) (hOnly u h)
      · intro u hu
        simp only [CState.pc] at hu
        by_cases h : u = t
        · subst h; rw [pcUpdate_self] at hu; exact PC.noConfusion hu
        · rw [pcUpdate_ne _ _ h] at hu
          exact absurd (by rw [hu]; rfl) (hOnly u h)
      · intro _
        show s.loadCount + 1 = s.installCount
        rw [hcl.1, hcl.2]
      · intro u j hu
        simp only [CState.pc] at hu
        by_cases h : u = t
        · subst h; rw [pcUpdate_self] at hu; exact PC.noConfusion hu
        · rw [pcUpdate_ne _ _ h] at hu; exact inv.slotOfDone u j hu
      · intro u hu
        simp only [CState.pc] at hu
        by_cases h : u = t
        · subst h; rw [pcUpdate_self] at hu; exact PC.noConfusion hu
        · rw [pcUpdate_ne _ _ h] at hu; exact inv.slotOfRet u hu
      · intro u hu
        simp only [CState.pc] at hu
        by_cases h : u = t
        · subst h
          show s.slot ≠ none
          rw [hslott]
          exact fun hx => Option.noConfusion hx
        · rw [pcUpdate_ne _ _ h] at hu; exact inv.slotOfRelease u hu
  | releaseExec t hpc hlock =>
      have hOnly : ∀ u : Fin n, ¬u = t → ¬(s.pc u).inCrit = true := by
        intro u hut hu
        have hl := inv.lockOfCrit u hu
        rw [hlock] at hl
        have h2 : t = u := by injection hl
        exact hut h2.symm
      refine ⟨?_, ?_, ?_, ?_, ?_, ?_, inv.slotInstallCount, inv.installBound, ?_, ?_, ?_⟩
      · intro u hu
        simp only [CState.pc] at hu
        by_cases h : u = t
        · subst h; rw [pcUpdate_self] at hu; exact Bool.noConfusion hu
        · rw [pcUpdate_ne _ _ h] at hu
          exact absurd hu (hOnly u h)
      · intro u hu
        have hu' : (none : Option (Fin n)) = some u := hu
        exact Option.noConfusion hu'
      · intro u hu
        simp only [CState.pc] at hu
        by_cases h : u = t
        · subst h; rw [pcUpdate_self] at hu; exact PC.noConfusion hu
        · rw [pcUpdate_ne _ _ h] at hu
          exact absurd (by rw [hu]; rfl) (hOnly u h)
      · intro u hu
        simp only [CState.pc] at hu
        by_cases h : u = t
        · subst h; rw [pcUpdate_self] at hu; exact PC.noConfusion hu
        · rw [pcUpdate_ne _ _ h] at hu
          exact absurd (by rw [hu]; rfl) (hOnly u h)
      · intro u hu
        simp only [CState.pc] at hu
        by_cases h : u = t
        · subst h; rw [pcUpdate_self] at hu; exact PC.noConfusion hu
        · rw [pcUpdate_ne _ _ h] at hu
          exact absurd (by rw [hu]; rfl) (hOnly u h)
      · intro h
        apply inv.countsMatch
        intro u
        by_cases hu : u = t
        · subst hu; rw [hpc]; intro hx; exact PC.noConfusion hx
        · have hx := h u
          simp only [CState.pc] at hx
          rw [pcUpdate_ne _ _ hu] at hx
          exact hx
      · intro u j hu
        simp only [CState.pc] at hu
        by_cases h : u = t
        · subst h; rw [pcUpdate_self] at hu; exact PC.noConfusion hu
        · rw [pcUpdate_ne _ _ h] at hu; exact inv.slotOfDone u j hu
      · intro u hu
        simp only [CState.pc] at hu
        by_cases h : u = t
        · subst h; exact inv.slotOfRelease u hpc
        · rw [pcUpdate_ne _ _ h] at hu; exact inv.slotOfRet u hu
      · intro u hu
        simp only [CState.pc] at hu
        by_cases h : u = t
        · subst h; rw [pcUpdate_self] at hu; exact PC.noConfusion hu
        · rw [pcUpdate_ne _ _ h] at hu; exact inv.slotOfRelease u hu
  | retExec t i hpc hslot =>
      refine ⟨?_, ?_, ?_, ?_, ?_, ?_, inv.slotInstallCount, inv.installBound, ?_, ?_, ?_⟩
      · intro u hu
        simp only [CState.pc] at hu
        by_cases h : u = t
        · subst h; rw [pcUpdate_self] at hu; exact Bool.noConfusion hu
        · rw [pcUpdate_ne _ _ h] at hu; exact inv.lockOfCrit u hu
      · intro u hu
        have hc := inv.critOfLock u hu
        show (pcUpdate s.pc t (PC.done i) u).inCrit = true
        by_cases h : u = t
        · subst h; rw [hpc] at hc; exact Bool.noConfusion hc
        · rw [pcUpdate_ne _ _ h]; exact hc
      · intro u hu
        simp only [CState.pc] at hu
        by_cases h : u = t
        · subst h; rw [pcUpdate_self] at hu; exact PC.noConfusion hu
        · rw [pcUpdate_ne _ _ h] at hu; exact inv.slotOfInstall u hu
      · intro u hu
        simp only [CState.pc] at hu
        by_cases h : u = t
        · subst h; rw [pcUpdate_self] at hu; exact PC.noConfusion hu
        · rw [pcUpdate_ne _ _ h] at hu; exact inv.slotOfLoad u hu
      · intro u hu
        simp only [CState.pc] at hu
        by_cases h : u = t
        · subst h; rw [pcUpdate_self] at hu; exact PC.noConfusion hu
        · rw [pcUpdate_ne _ _ h] at hu; exact inv.countOfLoad u hu
      · intro h
        apply inv.countsMatch
        intro u
        by_cases hu : u = t
        · subst hu; rw [hpc]; intro hx; exact PC.noConfusion hx
        · have hx := h u
          simp only [CState.pc] at hx
          rw [pcUpdate_ne _ _ hu] at hx
          exact hx
      · intro u j hu
        simp only [CState.pc] at hu
        by_cases h : u = t
        · subst h
          rw [pcUpdate_self] at hu
          have hij : i = j := by injection hu
          show s.slot = some j
          rw [← hij]
          exact hslot
        · rw [pcUpdate_ne _ _ h] at hu; exact inv.slotOfDone u j hu
      · intro u hu
        simp only [CState.pc] at hu
        by_cases h : u = t
        · subst h; rw [pcUpdate_self] at hu; exact PC.noConfusion hu
        · rw [pcUpdate_ne _ _ h] at hu; exact inv.slotOfRet u hu
      · intro u hu
        simp only [CState.pc] at hu
        by_cases h : u = t
        · subst h; rw [pcUpdate_self] at hu; exact PC.noConfusion hu
        · rw [pcUpdate_ne _ _ h] at hu; exact inv.slotOfRelease u hu

theorem raceInv_reachable {n : Nat} {s : CState n} (h : Reachable n s) : RaceInv n s := by
  induction h with
  | init => exact raceInv_init n
  | next _ hstep ih => exact raceInv_step ih hstep

/-- C9: in every reachable state of the `n`-caller first-construction race
(valid path, fresh slot), the installation statement only ever runs while
holding the lock, and once every caller has returned, exactly one file load
and exactly one construction have occurred and all `n` callers hold
identity-equal references to the single installed instance. -/
theorem singleton_first_construction_race (n : Nat) (hn : 0 < n) (s : CState n)
    (hr : Reachable n s) :
    (∀ t : Fin n, s.pc t = PC.installStep → s.lockHolder = some t) ∧
    ((∀ t : Fin n, (s.pc t).isDone = true) →
      s.loadCount = 1 ∧ s.installCount = 1 ∧
      ∃ i : InstId, s.slot = some i ∧ ∀ t : Fin n, s.pc t = PC.done i) := by
  have inv := raceInv_reachable hr
  constructor
  · intro t ht
    exact inv.lockOfCrit t (by rw [ht]; rfl)
  · intro hdone
    have hdoneEx : ∀ t : Fin n, ∃ j, s.pc t = PC.done j := by
      intro t
      have hd := hdone t
      cases hpc : s.pc t <;> rw [hpc] at hd <;>
        first
          | exact ⟨_, rfl⟩
          | exact Bool.noConfusion hd
    obtain ⟨i0, hi0⟩ := hdoneEx ⟨0, hn⟩
    have hslot : s.slot = some i0 := inv.slotOfDone _ i0 hi0
    have hic : s.installCount = 1 := by
      have h0 : s.installCount ≠ 0 := by
        intro h
        have hx := inv.slotInstallCount.mpr h
        rw [hslot] at hx
        exact Option.noConfusion hx
      have hb := inv.installBound
      omega
    have hNoLoad : ∀ u : Fin n, s.pc u ≠ PC.loadStep := by
      intro u hu
      have hd := hdone u
      rw [hu] at hd
      exact Bool.noConfusion hd
    have hlc : s.loadCount = 1 := (inv.countsMatch hNoLoad).trans hic
    refine ⟨hlc, hic, i0, hslot, ?_⟩
    intro t
    obtain ⟨j, hj⟩ := hdoneEx t
    have hsj := inv.slotOfDone t j hj
    rw [hslot] at hsj
    have hij : i0 = j := by injection hsj
    rw [hj, ← hij]

theorem raceStep01 : Step 2 raceS0 raceS1 := Step.fastCheckMiss raceT0 rfl rfl

theorem raceStep12 : Step 2 raceS1 raceS2 := Step.acquireLock raceT0 rfl rfl

theorem raceStep23 : Step 2 raceS2 raceS3 := Step.recheckMiss raceT0 rfl rfl

theorem raceStep34 : Step 2 raceS3 raceS4 := Step.installExec raceT0 rfl

theorem raceStep45 : Step 2 raceS4 raceS5 := Step.loadExec raceT0 rfl

theorem raceStep56 : Step 2 raceS5 raceS6 := Step.releaseExec raceT0 rfl rfl

theorem raceStep67 : Step 2 raceS6 raceS7 := Step.retExec raceT0 0 rfl rfl

theorem raceStep78 : Step 2 raceS7 raceS8 := Step.fastCheckHit raceT1 0 rfl rfl

theorem raceStep89 : Step 2 raceS8 raceS9 := Step.retExec raceT1 0 rfl rfl

theorem raceReachable9 : Reachable 2 raceS9 :=
  Reachable.next (Reachable.next (Reachable.next (Reachable.next (Reachable.next
    (Reachable.next (Reachable.next (Reachable.next (Reachable.next
      Reachable.init raceStep01) raceStep12) raceStep23) raceStep34) raceStep45)
        raceStep56) raceStep67) raceStep78) raceStep89

/-- A thread inside the critical region can always take a step. -/
theorem race_crit_progress {n : Nat} {s : CState n} (inv : RaceInv n s) (u : Fin n)
    (hu : (s.pc u).inCrit = true) : ∃ s', Step n s s' := by
  have hlock := inv.lockOfCrit u hu
  cases hpc : s.pc u with
  | recheck =>
      cases hs : s.slot with
      | none => exact ⟨_, Step.recheckMiss u hpc hs⟩
      | some i => exact ⟨_, Step.recheckHit u i hpc hs⟩
  | installStep => exact ⟨_, Step.installExec u hpc⟩
  | loadStep => exact ⟨_, Step.loadExec u hpc⟩
  | releaseStep => exact ⟨_, Step.releaseExec u hpc hlock⟩
  | fastCheck => rw [hpc] at hu; exact Bool.noConfusion hu
  | acquire => rw [hpc] at hu; exact Bool.noConfusion hu
  | retStep => rw [hpc] at hu; exact Bool.noConfusion hu
  | done j => rw [hpc] at hu; exact Bool.noConfusion hu

/-- Deadlock freedom of the race: in any reachable state in which some caller
has not yet returned, at least one thread can take a step. -/
theorem race_progress {n : Nat} {s : CState n} (hr : Reachable n s)
    (h : ¬∀ t : Fin n, (s.pc t).isDone = true) : ∃ s', Step n s s' := by
  have inv := raceInv_reachable hr
  push_neg at h
  obtain ⟨t, ht⟩ := h
  cases hpc : s.pc t with
  | fastCheck =>
      cases hs : s.slot with
      | none => exact ⟨_, Step.fastCheckMiss t hpc hs⟩
      | some i => exact ⟨_, Step.fastCheckHit t i hpc hs⟩
  | acquire =>
      cases hlk : s.lockHolder with
      | none => exact ⟨_, Step.acquireLock t hpc hlk⟩
      | some u => exact race_crit_progress inv u (inv.critOfLock u hlk)
  | recheck => exact race_crit_progress inv t (by rw [hpc]; rfl)
  | installStep => exact ⟨_, Step.installExec t hpc⟩
  | loadStep => exact ⟨_, Step.loadExec t hpc⟩
  | releaseStep => exact ⟨_, Step.releaseExec t hpc (inv.lockOfCrit t (by rw [hpc]; rfl))⟩
  | retStep =>
      cases hs : s.slot with
      | none => exact absurd hs (inv.slotOfRet t hpc)
      | some i => exact ⟨_, Step.retExec t i hpc hs⟩
  | done j =>
      rw [hpc] at ht
      exact absurd rfl ht

theorem sum_pcUpdate_lt {n : Nat} (p : Fin n → PC) (t : Fin n) (v : PC)
    (h : pcMeasure v < pcMeasure (p t)) :
    Finset.univ.sum (fun u => pcMeasure (pcUpdate p t v u))
      < Finset.univ.sum (fun u => pcMeasure (p u)) := by
  have he : (fun u => pcMeasure (pcUpdate p t v u))
      = Function.update (fun u => pcMeasure (p u)) t (pcMeasure v) := by
    funext u
    by_cases hu : u = t
    · subst hu; simp [pcUpdate, Function.update]
    · simp [pcUpdate, Function.update, hu]
  rw [he, Finset.sum_update_of_mem (Finset.mem_univ t)]
  have hsplit : Finset.univ.sum (fun u => pcMeasure (p u))
      = pcMeasure (p t)
        + Finset.sum (Finset.univ \ {t}) (fun u => pcMeasure (p u)) :=
    Finset.sum_eq_add_sum_diff_singleton (Finset.mem_univ t) _
  rw [hsplit]
  omega

/-- Every step strictly decreases the measure: together with deadlock
freedom, every maximal execution of the race ends with all callers done. -/
theorem raceMeasure_step {n : Nat} {s s' : CState n} (hstep : Step n s s') :
    raceMeasure s' < raceMeasure s := by
  cases hstep with
  | fastCheckHit t i hpc hslot =>
      show Finset.univ.sum (fun u => pcMeasure (pcUpdate s.pc t PC.retStep u))
          < Finset.univ.sum (fun u => pcMeasure (s.pc u))
      exact sum_pcUpdate_lt s.pc t PC.retStep (by rw [hpc]; decide)
  | fastCheckMiss t hpc hslot =>
      show Finset.univ.sum (fun u => pcMeasure (pcUpdate s.pc t PC.acquire u))
          < Finset.univ.sum (fun u => pcMeasure (s.pc u))
      exact sum_pcUpdate_lt s.pc t PC.acquire (by rw [hpc]; decide)
  | acquireLock t hpc hlk =>
      show Finset.univ.sum (fun u => pcMeasure (pcUpdate s.pc t PC.recheck u))
          < Finset.univ.sum (fun u => pcMeasure (s.pc u))
      exact sum_pcUpdate_lt s.pc t PC.recheck (by rw [hpc]; decide)
  | recheckHit t i hpc hslot =>
      show Finset.univ.sum (fun u => pcMeasure (pcUpdate s.pc t PC.releaseStep u))
          < Finset.univ.sum (fun u => pcMeasure (s.pc u))
      exact sum_pcUpdate_lt s.pc t PC.releaseStep (by rw [hpc]; decide)
  | recheckMiss t hpc hslot =>
      show Finset.univ.sum (fun u => pcMeasure (pcUpdate s.pc t PC.installStep u))
          < Finset.univ.sum (fun u => pcMeasure (s.pc u))
      exact sum_pcUpdate_lt s.pc t PC.installStep (by rw [hpc]; decide)
  | installExec t hpc =>
      show Finset.univ.sum (fun u => pcMeasure (pcUpdate s.pc t PC.loadStep u))
          < Finset.univ.sum (fun u => pcMeasure (s.pc u))
      exact sum_pcUpdate_lt s.pc t PC.loadStep (by rw [hpc]; decide)
  | loadExec t hpc =>
      show Finset.univ.sum (fun u => pcMeasure (pcUpdate s.pc t PC.releaseStep u))
          < Finset.univ.sum (fun u => pcMeasure (s.pc u))
      exact sum_pcUpdate_lt s.pc t PC.releaseStep (by rw [hpc]; decide)
  | releaseExec t hpc hlk =>
      show Finset.univ.sum (fun u => pcMeasure (pcUpdate s.pc t PC.retStep u))
          < Finset.univ.sum (fun u => pcMeasure (s.pc u))
      exact sum_pcUpdate_lt s.pc t PC.retStep (by rw [hpc]; decide)
  | retExec t i hpc hslot =>
      show Finset.univ.sum (fun u => pcMeasure (pcUpdate s.pc t (PC.done i) u))
          < Finset.univ.sum (fun u => pcMeasure (s.pc u))
      exact sum_pcUpdate_lt s.pc t (PC.done i) (by rw [hpc]; simp [pcMeasure])

theorem singleton_first_construction_race_witness :
    0 < 2 ∧ Reachable 2 raceS9 ∧ raceS9.loadCount = 1 ∧ raceS9.installCount = 1 ∧
      raceS9.slot = some 0 ∧ raceS9.pc raceT0 = PC.done 0 ∧ raceS9.pc raceT1 = PC.done 0 := by
  have h := (singleton_first_construction_race 2 (by decide) raceS9 raceReachable9).2
    (by decide)
  exact ⟨by decide, raceReachable9, h.1, h.2.1, rfl, rfl, rfl⟩

end SentinelResponse
